import Mathlib

/-!
# Verification of the polylog library (Li2 real/complex, Li4 complex, cln)

Shallow embedding of the numerical algorithms of the `polylog` Rust crate
over the real numbers: every `f64` value is modelled by a real number and
every floating-point operation by the corresponding exact real operation.
Complex values `Complex<f64>` are modelled by `ℂ`.  The literal constants
of the source (`pi`, coefficient tables, `z4`, ...) are kept as the exact
decimal values written in the source.  `Complex::arg` (IEEE `atan2`) is
modelled by `Complex.arg`, `f64::ln` by `Real.log`, complex `ln` by
`Complex.log`.

Signed-zero behaviour (claims about `-0.0`) is modelled separately by a
small signed-float layer (`SFl`, `sarg`, `clnS`, `li2S`): a value of type
`SFl` carries a real value together with a flag marking a negative-zero
bit pattern, and `sarg` implements the IEEE `atan2` conventions for
signed zeros.
-/

noncomputable section

namespace Polylog

open Complex (I normSq arg ofReal)

/-- The literal `pi` constant of the source (`3.141592653589793`). -/
def pi : ℝ := 3.141592653589793

def pi2 : ℝ := pi * pi

def pi3 : ℝ := pi2 / 3

def pi6 : ℝ := pi2 / 6

/-- `std::f64::EPSILON`, exactly `2⁻⁵²`. -/
def f64Eps : ℝ := 1 / 2 ^ 52

/-- The 20 Chebyshev coefficients from `li2.rs` (real dilogarithm). -/
def li2Coeffs : List ℝ :=
  [0.42996693560813697, 0.40975987533077105,
   -0.01858843665014592, 0.00145751084062268, -0.00014304184442340,
   0.00001588415541880, -0.00000190784959387, 0.00000024195180854,
   -0.00000003193341274, 0.00000000434545063, -0.00000000060578480,
   0.00000000008612098, -0.00000000001244332, 0.00000000000182256,
   -0.00000000000027007, 0.00000000000004042, -0.00000000000000610,
   0.00000000000000093, -0.00000000000000014, 0.00000000000000002]

/-- The six-region argument reduction of the real dilogarithm: given `x`,
produce `(y, s, a)` from `t = -x` exactly as in `li2.rs` lines 46-65. -/
def li2Reduce (x : ℝ) : ℝ × ℝ × ℝ :=
  let t : ℝ := -x
  if t ≤ -2 then
    let b1 := Real.log (-t)
    let b2 := Real.log (1 + 1 / t)
    (-1 / (1 + t), 1, -pi3 + 0.5 * (b1 * b1 - b2 * b2))
  else if t < -1 then
    let a := Real.log (-t)
    (-1 - t, -1, -pi6 + a * (a + Real.log (1 + 1 / t)))
  else if t ≤ -0.5 then
    let a := Real.log (-t)
    (-(1 + t) / t, 1, -pi6 + a * (-0.5 * a + Real.log (1 + t)))
  else if t < 0 then
    let b1 := Real.log (1 + t)
    (-t / (1 + t), -1, 0.5 * b1 * b1)
  else if t ≤ 1 then
    (t, 1, 0)
  else
    let b1 := Real.log t
    (1 / t, -1, pi6 + 0.5 * b1 * b1)

/-- One step of the Clenshaw recurrence: state `(b1, b2)`, new state
`(c + alfa*b1 - b2, b1)` (the first component is the freshly computed
`b0`). -/
def clenshawStep (alfa : ℝ) (p : ℝ × ℝ) (c : ℝ) : ℝ × ℝ :=
  (c + alfa * p.1 - p.2, p.1)

/-- The Clenshaw loop of `li2.rs` lines 69-76: iterate over the
coefficients from highest degree to lowest; returns the final `(b0, b2)`. -/
def clenshaw (alfa : ℝ) : ℝ × ℝ :=
  li2Coeffs.reverse.foldl (clenshawStep alfa) (0, 0)

/-- The real dilogarithm `li2` of `li2.rs` (`impl Li2<f64> for f64`). -/
def li2R (x : ℝ) : ℝ :=
  if x = 1 then pi6
  else if x = -1 then -pi2 / 12
  else
    let r := li2Reduce x
    let y := r.1
    let s := r.2.1
    let a := r.2.2
    let h := y + y - 1
    let p := clenshaw (h + h);
    -(s * (p.1 - h * p.2) + a)

/-- Helper `sqr` from `li2.rs`. -/
def sqr (x : ℂ) : ℂ := x * x

/-- The four-way transform branch of the complex dilogarithm
(`li2.rs` lines 134-147), producing `(cy, cz, jsgn, ipi12)`. -/
def li2Branch (z : ℂ) : ℂ × ℂ × ℝ × ℝ :=
  if z.re ≤ 0.5 then
    if 1 < normSq z then
      (↑(-0.5 : ℝ) * sqr (Complex.log (-z)), -Complex.log (1 - 1 / z), -1, -2)
    else
      (0, -Complex.log (1 - z), 1, 0)
  else
    if normSq z ≤ 2 * z.re then
      let l := -Complex.log z
      (l * Complex.log (1 - z), l, -1, 2)
    else
      (↑(-0.5 : ℝ) * sqr (Complex.log (-z)), -Complex.log (1 - 1 / z), -1, -2)

/-- The 10-term Bernoulli power series of the complex dilogarithm
(`li2.rs` lines 150-162). -/
def li2Sum (cz : ℂ) : ℂ :=
  let cz2 := sqr cz
  cz +
    cz2 * (↑(-1 / 4 : ℝ) +
    cz * (↑(1 / 36 : ℝ) +
    cz2 * (↑(-1 / 3600 : ℝ) +
    cz2 * (↑(1 / 211680 : ℝ) +
    cz2 * (↑(-1 / 10886400 : ℝ) +
    cz2 * (↑(1 / 526901760 : ℝ) +
    cz2 * (↑(-4.064761645144226e-11 : ℝ) +
    cz2 * (↑(8.921691020456453e-13 : ℝ) +
    cz2 * (↑(-1.993929586072108e-14 : ℝ) +
    cz2 * (↑(4.518980029619918e-16 : ℝ)))))))))))

/-- The complex dilogarithm `li2` of `li2.rs`
(`impl Li2<Complex<f64>> for Complex<f64>`). -/
def li2C (z : ℂ) : ℂ :=
  if z.im = 0 then
    if z.re ≤ 1 then ⟨li2R z.re, 0⟩
    else ⟨li2R z.re, -pi * Real.log z.re⟩
  else if normSq z < f64Eps then z
  else
    let q := li2Branch z
    let cy := q.1
    let cz := q.2.1
    let jsgn := q.2.2.1
    let ipi12 := q.2.2.2
    ↑jsgn * li2Sum cz + cy + ↑(ipi12 * pi * pi / 12)

/-! ### Li4 (`li4.rs`) -/

/-- The `cln` helper of `li4.rs` at the level of real values: the
signed-zero canonicalization does not change the value of any component,
so on values it returns `(0.5 · ln(|z|²), arg z)`. -/
def clnC (z : ℂ) : ℂ := ⟨0.5 * Real.log (normSq z), arg z⟩

/-- The constant `z4 = ζ(4)` literal of `li4.rs`. -/
def z4 : ℝ := 1.082323233711138

/-- The 18-coefficient Horner power series of `li4.rs` lines 96-115
(`bf` table). -/
def li4Series (u : ℂ) : ℂ :=
  u * (↑(1 : ℝ) +
  u * (↑(-7 / 16 : ℝ) +
  u * (↑(1.165123456790123e-01 : ℝ) +
  u * (↑(-1.982060185185185e-02 : ℝ) +
  u * (↑(1.927932098765432e-03 : ℝ) +
  u * (↑(-3.105709876543209e-05 : ℝ) +
  u * (↑(-1.562400911485783e-05 : ℝ) +
  u * (↑(8.485123546773206e-07 : ℝ) +
  u * (↑(2.290961660318971e-07 : ℝ) +
  u * (↑(-2.183261421852691e-08 : ℝ) +
  u * (↑(-3.882824879172015e-09 : ℝ) +
  u * (↑(5.446292103220332e-10 : ℝ) +
  u * (↑(6.960805210682725e-11 : ℝ) +
  u * (↑(-1.337573768644521e-11 : ℝ) +
  u * (↑(-1.278485268526657e-12 : ℝ) +
  u * (↑(3.260562858024892e-13 : ℝ) +
  u * (↑(2.364757116861825e-14 : ℝ) +
  u * (↑(-7.923135122031161e-15 : ℝ)))))))))))))))))))

/-- The small-log expansion of `li4.rs` lines 57-84. -/
def li4Small (z : ℂ) : ℂ :=
  let u : ℂ := ⟨0.5 * Real.log (normSq z), arg z⟩
  let u2 := u * u
  let c1 : ℝ := 1.202056903159594
  let c2 : ℝ := 0.8224670334241132
  let c3 : ℂ := (↑(11 / 6 : ℝ) - clnC (-u)) / 6
  let c4 : ℝ := -1 / 48
  ↑z4 + u2 * (↑c2 + u2 * ↑c4) +
    u * (↑c1 +
    u2 * (c3 +
    u2 * (↑(-6.944444444444444e-04 : ℝ) +
    u2 * (↑(1.653439153439153e-06 : ℝ) +
    u2 * (↑(-1.093544413650234e-08 : ℝ) +
    u2 * (↑(1.043837849393405e-10 : ℝ) +
    u2 * (↑(-1.216594230062244e-12 : ℝ) +
    u2 * (↑(1.613000652835010e-14 : ℝ) +
    u2 * (↑(-2.342881045287934e-16 : ℝ))))))))))

/-- The canonicalized logarithm of `-z` used in the inversion branch of
`li4.rs` lines 90-91: real part `0.5 · ln(|z|²)`, imaginary part
`arg z - pi` when `arg z > 0` and `arg z + pi` otherwise (`pi` being the
literal constant). -/
def li4lmz (z : ℂ) : ℂ :=
  ⟨0.5 * Real.log (normSq z), if 0 < arg z then arg z - pi else arg z + pi⟩

/-- The closed-form `rest` term of the inversion branch of `li4.rs`
line 93: `1/360·(-7π⁴ + lmz²·(-30π² - 15·lmz²))`. -/
def li4Rest (z : ℂ) : ℂ :=
  let pi4 : ℝ := pi2 * pi2
  let lmz2 := li4lmz z * li4lmz z
  ↑(1 / 360 : ℝ) * (↑(-7 * pi4) + lmz2 * (↑(-30 * pi2) - ↑(15 : ℝ) * lmz2))

/-- The large-log branch of `li4.rs` lines 86-115: choose `(u, rest, sgn)`
by comparing `|z|²` against 1, then return `rest + sgn · series(u)`. -/
def li4Large (z : ℂ) : ℂ :=
  let t : ℂ × ℂ × ℝ :=
    if normSq z ≤ 1 then (-clnC (1 - z), 0, 1)
    else (-clnC (1 - 1 / z), li4Rest z, -1)
  t.2.1 + ↑t.2.2 * li4Series t.1

/-- The complex fourth-order polylogarithm `li4` of `li4.rs`. -/
def li4C (z : ℂ) : ℂ :=
  if z.im = 0 ∧ z.re = 0 then 0
  else if z.im = 0 ∧ z.re = 1 then ↑z4
  else if z.im = 0 ∧ z.re = -1 then ↑(-7 / 8 * z4)
  else
    let lnz := 0.5 * Real.log (normSq z)
    if lnz * lnz + arg z * arg z < 1 then li4Small z
    else li4Large z

/-- The real value computed by the small-log branch of `li4` at the real
point `z = 1/2`, where `u = -log 2` (see `li4C_half`): the complex Horner
evaluation collapses to this real expression. -/
def li4HalfReal : ℝ :=
  let M := Real.log (Real.log 2)
  let K := Real.log 2 * Real.log 2
  z4 + K * (0.8224670334241132 + K * (-1 / 48)) +
    (-Real.log 2) * (1.202056903159594 + K * ((11 / 6 - M) / 6 + K * (-6.944444444444444e-04 + K * (1.653439153439153e-06 + K * (-1.093544413650234e-08 + K * (1.043837849393405e-10 + K * (-1.216594230062244e-12 + K * (1.613000652835010e-14 + K * (-2.342881045287934e-16)))))))))

/-! ### Signed-zero layer

The claims about `-0.0` cannot be stated over plain real values (where
`-0.0 = 0.0`).  This layer models an `f64` as a real value together with
a flag `nz` recording a negative-zero bit pattern (meaningful only when
the value is `0`), and models the IEEE `atan2` conventions for signed
zeros.  The IEEE comparison `x == 0.0` is true for both `+0.0` and
`-0.0`, i.e. it only inspects the real value. -/

/-- A double-precision float as far as the signed-zero claims are
concerned: a real value plus a negative-zero flag (only meaningful when
`val = 0`). -/
structure SFl where
  val : ℝ
  nz : Bool

/-- Positive zero. -/
def SFl.pz : SFl := ⟨0, false⟩

/-- Negative zero (`-0.0`). -/
def SFl.mz : SFl := ⟨0, true⟩

/-- IEEE `atan2 im re` (the `Complex::arg` of the `num` crate) on signed
floats.  When `im` is a zero, the result is `0` on and to the right of
the positive real axis and `±π` (sign taken from the zero's sign bit) to
the left of it; a real part stored as `-0.0` counts as lying to the
left.  When `im ≠ 0` no zero-sign convention is involved and the result
is the principal argument of the value. -/
def sarg (re im : SFl) : ℝ :=
  if im.val = 0 then
    if re.val < 0 ∨ (re.val = 0 ∧ re.nz) then
      (if im.nz then -Real.pi else Real.pi)
    else 0
  else arg ⟨re.val, im.val⟩

/-- The canonicalization step of `cln` (`li4.rs` lines 125-128): a
component that compares equal to `0.0` (which `-0.0` does) is replaced
by positive zero. -/
def canonZ (a : SFl) : SFl := if a.val = 0 then SFl.pz else a

/-- The `cln` helper of `li4.rs` on signed floats: canonicalize both
components, then return `(0.5·ln(|z|²), arg z)` of the canonicalized
value. -/
def clnS (re im : SFl) : ℝ × ℝ :=
  let r := if re.val = 0 then SFl.pz else re
  let i := if im.val = 0 then SFl.pz else im
  (0.5 * Real.log (r.val * r.val + i.val * i.val), sarg r i)

/-- The complex dilogarithm on a signed imaginary part: the leading
`iz == 0.` test of `li2.rs` line 124 is an IEEE comparison, so `-0.0`
takes the real-axis path; when `im ≠ 0` none of the operations performed
by `li2` inspects a zero-sign bit, so the result is the value-level
`li2C`. -/
def li2S (re im : ℝ) (_imNeg : Bool) : ℝ × ℝ :=
  if im = 0 then
    if re ≤ 1 then (li2R re, 0)
    else (li2R re, -pi * Real.log re)
  else ((li2C ⟨re, im⟩).re, (li2C ⟨re, im⟩).im)

/-! ### Claim theorems -/

/-- C7: for every complex `z` with `Im(z) ≠ 0` and `|z|² < machine
epsilon (f64 EPSILON)`, `li2` returns `z` unchanged. -/
theorem li2C_tiny_returns_z (z : ℂ) (him : z.im ≠ 0)
    (hnz : normSq z < f64Eps) : li2C z = z := by
  simp only [li2C, if_neg him, if_pos hnz]

/-- Witness for C7 at `z = ⟨0, 2⁻³⁰⟩`. -/
theorem li2C_tiny_returns_z_witness :
    (⟨0, 1 / 2 ^ 30⟩ : ℂ).im ≠ 0 ∧ normSq (⟨0, 1 / 2 ^ 30⟩ : ℂ) < f64Eps ∧
      li2C ⟨0, 1 / 2 ^ 30⟩ = ⟨0, 1 / 2 ^ 30⟩ := by
  have h1 : (⟨0, 1 / 2 ^ 30⟩ : ℂ).im ≠ 0 := by norm_num
  have h2 : normSq (⟨0, 1 / 2 ^ 30⟩ : ℂ) < f64Eps := by
    rw [Complex.normSq_mk, f64Eps]; norm_num
  exact ⟨h1, h2, li2C_tiny_returns_z _ h1 h2⟩

/-- C3: for every real `x`, the complex dilogarithm at `⟨x, 0⟩` returns
exactly `(li2R x, 0)` when `x ≤ 1` and exactly `(li2R x, -pi·ln x)` when
`x > 1`. -/
theorem li2C_real_axis (x : ℝ) :
    li2C ⟨x, 0⟩ = ⟨li2R x, if x ≤ 1 then 0 else -pi * Real.log x⟩ := by
  by_cases hx : x ≤ 1 <;> simp [li2C, hx]

/-- C5: for every real `x` other than `1` and `-1`, the six-region
argument reduction produces `y ∈ (-1, 1]` and a sign `s ∈ {-1, 1}`. -/
theorem li2Reduce_y_range (x : ℝ) (_hx1 : x ≠ 1) (_hx2 : x ≠ -1) :
    (-1 < (li2Reduce x).1 ∧ (li2Reduce x).1 ≤ 1) ∧
    ((li2Reduce x).2.1 = -1 ∨ (li2Reduce x).2.1 = 1) := by
  clear _hx1 _hx2
  unfold li2Reduce
  dsimp only
  split_ifs with h1 h2 h3 h4 h5 <;> dsimp only
  · -- t ≤ -2 : y = -1/(1+t)
    set t : ℝ := -x with ht
    have hw : (1 : ℝ) + t ≤ -1 := by linarith
    have hw0 : (1 : ℝ) + t ≠ 0 := by intro h; rw [h] at hw; linarith
    have hy : -1 / (1 + t) * (1 + t) = -1 := div_mul_cancel₀ _ hw0
    constructor
    · constructor
      · nlinarith [hy, hw]
      · nlinarith [hy, hw]
    · right; rfl
  · -- -2 < t < -1 : y = -1 - t
    constructor
    · constructor <;> [linarith; linarith]
    · left; rfl
  · -- -1 ≤ t ≤ -0.5 : y = -(1+t)/t
    set t : ℝ := -x with ht
    have hta : (-1 : ℝ) ≤ t := by linarith
    have htb : t ≤ -0.5 := h3
    have ht0 : t ≠ 0 := by intro h; rw [h] at htb; norm_num at htb
    have hy : -(1 + t) / t * t = -(1 + t) := div_mul_cancel₀ _ ht0
    constructor
    · constructor
      · nlinarith [hy]
      · nlinarith [hy]
    · right; rfl
  · -- -0.5 < t < 0 : y = -t/(1+t)
    set t : ℝ := -x with ht
    have hta : (-0.5 : ℝ) < t := by linarith
    have hw : (0 : ℝ) < 1 + t := by linarith
    have hw0 : (1 : ℝ) + t ≠ 0 := ne_of_gt hw
    have hy : -t / (1 + t) * (1 + t) = -t := div_mul_cancel₀ _ hw0
    constructor
    · constructor
      · nlinarith [hy]
      · nlinarith [hy]
    · left; rfl
  · -- 0 ≤ t ≤ 1 : y = t
    constructor
    · constructor <;> [linarith; linarith]
    · right; rfl
  · -- t > 1 : y = 1/t
    set t : ℝ := -x with ht
    have hta : (1 : ℝ) < t := by
      push_neg at h1 h2 h3 h4 h5; linarith
    have ht0 : t ≠ 0 := ne_of_gt (by linarith)
    have hy : 1 / t * t = 1 := div_mul_cancel₀ _ ht0
    constructor
    · constructor
      · nlinarith [hy]
      · nlinarith [hy]
    · left; rfl

/-- Witness for C5 at `x = 3`. -/
theorem li2Reduce_y_range_witness :
    (3 : ℝ) ≠ 1 ∧ (3 : ℝ) ≠ -1 ∧
      ((-1 < (li2Reduce 3).1 ∧ (li2Reduce 3).1 ≤ 1) ∧
       ((li2Reduce 3).2.1 = -1 ∨ (li2Reduce 3).2.1 = 1)) :=
  ⟨by norm_num, by norm_num,
   li2Reduce_y_range 3 (by norm_num) (by norm_num)⟩

/-- C6: `cln` first replaces a component comparing equal to zero by
positive zero, then returns `(0.5·ln(|z|²), arg z)` computed from the
canonicalized value; the canonicalization leaves component values
unchanged. -/
theorem clnS_canonicalizes (re im : SFl) :
    clnS re im =
      (0.5 * Real.log ((canonZ re).val * (canonZ re).val +
        (canonZ im).val * (canonZ im).val),
       sarg (canonZ re) (canonZ im)) ∧
    (canonZ re).val = re.val ∧ (canonZ im).val = im.val := by
  refine ⟨rfl, ?_, ?_⟩ <;>
    · unfold canonZ
      split_ifs with h
      · simp [SFl.pz, h]
      · rfl

/-- C10: `cln` treats `-0.0` components exactly as `+0.0` components,
and for `re < 0` the imaginary part of `cln ⟨re, -0.0⟩` is `+π`, whereas
the uncanonicalized principal logarithm (plain IEEE `atan2`) would give
`-π` there. -/
theorem clnS_signed_zero (re im : ℝ) (rN iN : Bool) :
    clnS ⟨re, rN⟩ SFl.mz = clnS ⟨re, rN⟩ SFl.pz ∧
    clnS SFl.mz ⟨im, iN⟩ = clnS SFl.pz ⟨im, iN⟩ ∧
    (re < 0 →
      (clnS ⟨re, rN⟩ SFl.mz).2 = Real.pi ∧
      sarg ⟨re, rN⟩ SFl.mz = -Real.pi) := by
  refine ⟨by simp [clnS, SFl.mz, SFl.pz], by simp [clnS, SFl.mz, SFl.pz], ?_⟩
  intro hre
  have hre0 : re ≠ 0 := ne_of_lt hre
  constructor
  · simp [clnS, SFl.mz, SFl.pz, sarg, hre0, hre]
  · simp [sarg, SFl.mz, hre]

/-- Witness for C10 at `re = -2`, `im = 5`. -/
theorem clnS_signed_zero_witness :
    (-2 : ℝ) < 0 ∧
      (clnS ⟨-2, false⟩ SFl.mz).2 = Real.pi ∧
      sarg ⟨-2, false⟩ SFl.mz = -Real.pi :=
  ⟨by norm_num, (clnS_signed_zero (-2) 5 false false).2.2 (by norm_num)⟩

/-- C9: `li2` on a negative-zero imaginary part returns exactly the
result for a positive-zero imaginary part (the IEEE test `iz == 0.` is
true for `-0.0`), and for `x > 1` the imaginary part is the
above-the-cut continuation `-pi·ln x`, not its conjugate `pi·ln x`. -/
theorem li2S_negzero_on_axis (x : ℝ) :
    li2S x 0 true = li2S x 0 false ∧
    (1 < x →
      (li2S x 0 true).2 = -pi * Real.log x ∧
      (li2S x 0 true).2 ≠ pi * Real.log x) := by
  refine ⟨rfl, fun hx => ?_⟩
  have hx' : ¬x ≤ 1 := not_le.2 hx
  have hval : (li2S x 0 true).2 = -pi * Real.log x := by
    simp [li2S, hx']
  refine ⟨hval, ?_⟩
  rw [hval]
  have hlog : 0 < Real.log x := Real.log_pos hx
  have hpi : (0 : ℝ) < pi := by norm_num [pi]
  intro h
  nlinarith [h, hlog, hpi]

/-- Witness for C9 at `x = 2`. -/
theorem li2S_negzero_on_axis_witness :
    (1 : ℝ) < 2 ∧
      ((li2S 2 0 true).2 = -pi * Real.log 2 ∧
       (li2S 2 0 true).2 ≠ pi * Real.log 2) :=
  ⟨by norm_num, (li2S_negzero_on_axis 2).2 (by norm_num)⟩

/-- C1: for every `z` with `Im(z) ≠ 0` and `(0.5·ln|z|²)² + arg(z)² ≥ 1`,
`li4` computes: if `|z|² ≤ 1` then `u = -cln(1-z)`, `sgn = +1`,
`rest = 0`; otherwise `u = -cln(1-1/z)`, `sgn = -1` and
`rest = 1/360·(-7π⁴ + lmz²·(-30π² - 15·lmz²))` with
`lmz = ⟨0.5·ln|z|², arg z - π if arg z > 0 else arg z + π⟩`; the result
is `rest + sgn · (the 18-coefficient Horner series in u)`. -/
theorem li4C_large_log (z : ℂ) (him : z.im ≠ 0)
    (hlog : 1 ≤ (0.5 * Real.log (normSq z)) ^ 2 + arg z ^ 2) :
    li4C z =
      if normSq z ≤ 1 then
        (0 : ℂ) + ↑(1 : ℝ) * li4Series (-clnC (1 - z))
      else
        ↑(1 / 360 : ℝ) *
            (↑(-7 * (pi2 * pi2)) +
              (⟨0.5 * Real.log (normSq z),
                 if 0 < arg z then arg z - pi else arg z + pi⟩ : ℂ) ^ 2 *
                (↑(-30 * pi2) -
                  ↑(15 : ℝ) *
                    (⟨0.5 * Real.log (normSq z),
                       if 0 < arg z then arg z - pi else arg z + pi⟩ : ℂ) ^ 2)) +
          ↑(-1 : ℝ) * li4Series (-clnC (1 - 1 / z)) := by
  have h1 : ¬(z.im = 0 ∧ z.re = 0) := fun h => him h.1
  have h2 : ¬(z.im = 0 ∧ z.re = 1) := fun h => him h.1
  have h3 : ¬(z.im = 0 ∧ z.re = -1) := fun h => him h.1
  have h4 : ¬(0.5 * Real.log (normSq z) * (0.5 * Real.log (normSq z)) +
      arg z * arg z < 1) := by
    rw [not_lt]
    calc (1 : ℝ) ≤ (0.5 * Real.log (normSq z)) ^ 2 + arg z ^ 2 := hlog
      _ = 0.5 * Real.log (normSq z) * (0.5 * Real.log (normSq z)) +
          arg z * arg z := by ring
  rw [li4C, if_neg h1, if_neg h2, if_neg h3]
  simp only [if_neg h4]
  unfold li4Large li4Rest li4lmz
  split_ifs <;> dsimp only <;> try ring

/-- Witness for C1 at `z = ⟨0, 8⟩` (so `|z|² = 64 > 1`). -/
theorem li4C_large_log_witness :
    (⟨0, 8⟩ : ℂ).im ≠ 0 ∧
      1 ≤ (0.5 * Real.log (normSq (⟨0, 8⟩ : ℂ))) ^ 2 + arg (⟨0, 8⟩ : ℂ) ^ 2 ∧
      li4C ⟨0, 8⟩ =
        (if normSq (⟨0, 8⟩ : ℂ) ≤ 1 then
          (0 : ℂ) + ↑(1 : ℝ) * li4Series (-clnC (1 - ⟨0, 8⟩))
        else
          ↑(1 / 360 : ℝ) *
              (↑(-7 * (pi2 * pi2)) +
                (⟨0.5 * Real.log (normSq (⟨0, 8⟩ : ℂ)),
                   if 0 < arg (⟨0, 8⟩ : ℂ) then arg (⟨0, 8⟩ : ℂ) - pi
                   else arg (⟨0, 8⟩ : ℂ) + pi⟩ : ℂ) ^ 2 *
                  (↑(-30 * pi2) -
                    ↑(15 : ℝ) *
                      (⟨0.5 * Real.log (normSq (⟨0, 8⟩ : ℂ)),
                         if 0 < arg (⟨0, 8⟩ : ℂ) then arg (⟨0, 8⟩ : ℂ) - pi
                         else arg (⟨0, 8⟩ : ℂ) + pi⟩ : ℂ) ^ 2)) +
            ↑(-1 : ℝ) * li4Series (-clnC (1 - 1 / ⟨0, 8⟩))) := by
  have him : (⟨0, 8⟩ : ℂ).im ≠ 0 := by norm_num
  have hn : normSq (⟨0, 8⟩ : ℂ) = 64 := by
    rw [Complex.normSq_mk]; norm_num
  have hlog64 : Real.log (normSq (⟨0, 8⟩ : ℂ)) = 6 * Real.log 2 := by
    rw [hn, show (64 : ℝ) = 2 ^ 6 by norm_num, Real.log_pow]
    norm_num
  have hlog : 1 ≤ (0.5 * Real.log (normSq (⟨0, 8⟩ : ℂ))) ^ 2 +
      arg (⟨0, 8⟩ : ℂ) ^ 2 := by
    rw [hlog64]
    nlinarith [Real.log_two_gt_d9, sq_nonneg (arg (⟨0, 8⟩ : ℂ))]
  exact ⟨him, hlog, li4C_large_log _ him hlog⟩

/-- C2 (amended): for every `z` with `Im(z) ≠ 0` and `|z|² ≥ machine
epsilon`, the transform branch produces `cy` equal to zero, to
`-½·ln(-z)²`, or (in the branch `Re(z) > ½`, `|z|² ≤ 2·Re(z)`) to
`-ln(z)·ln(1-z)`; `cz` equal to `-ln(1-1/z)`, `-ln(1-z)`, or `-ln(z)`;
`jsgn ∈ {-1, 1}`; and `ipi12 ∈ {-2, 0, 2}`. -/
theorem li2Branch_shapes (z : ℂ) (_him : z.im ≠ 0)
    (_hnz : f64Eps ≤ normSq z) :
    ((li2Branch z).1 = 0 ∨
     (li2Branch z).1 = ↑(-0.5 : ℝ) * sqr (Complex.log (-z)) ∨
     (li2Branch z).1 = (-Complex.log z) * Complex.log (1 - z)) ∧
    ((li2Branch z).2.1 = -Complex.log (1 - 1 / z) ∨
     (li2Branch z).2.1 = -Complex.log (1 - z) ∨
     (li2Branch z).2.1 = -Complex.log z) ∧
    ((li2Branch z).2.2.1 = -1 ∨ (li2Branch z).2.2.1 = 1) ∧
    ((li2Branch z).2.2.2 = -2 ∨ (li2Branch z).2.2.2 = 0 ∨
     (li2Branch z).2.2.2 = 2) := by
  unfold li2Branch
  split_ifs <;> dsimp only
  · exact ⟨Or.inr (Or.inl rfl), Or.inl rfl, Or.inl rfl, Or.inl rfl⟩
  · exact ⟨Or.inl rfl, Or.inr (Or.inl rfl), Or.inr rfl, Or.inr (Or.inl rfl)⟩
  · exact ⟨Or.inr (Or.inr rfl), Or.inr (Or.inr rfl), Or.inl rfl,
      Or.inr (Or.inr rfl)⟩
  · exact ⟨Or.inr (Or.inl rfl), Or.inl rfl, Or.inl rfl, Or.inl rfl⟩

/-- Witness for the amended C2 at `z = ⟨2, 3⟩`. -/
theorem li2Branch_shapes_witness :
    (⟨2, 3⟩ : ℂ).im ≠ 0 ∧ f64Eps ≤ normSq (⟨2, 3⟩ : ℂ) ∧
      (((li2Branch ⟨2, 3⟩).1 = 0 ∨
        (li2Branch ⟨2, 3⟩).1 = ↑(-0.5 : ℝ) * sqr (Complex.log (-(⟨2, 3⟩ : ℂ))) ∨
        (li2Branch ⟨2, 3⟩).1 =
          (-Complex.log ⟨2, 3⟩) * Complex.log (1 - ⟨2, 3⟩)) ∧
       ((li2Branch ⟨2, 3⟩).2.1 = -Complex.log (1 - 1 / ⟨2, 3⟩) ∨
        (li2Branch ⟨2, 3⟩).2.1 = -Complex.log (1 - ⟨2, 3⟩) ∨
        (li2Branch ⟨2, 3⟩).2.1 = -Complex.log ⟨2, 3⟩) ∧
       ((li2Branch ⟨2, 3⟩).2.2.1 = -1 ∨ (li2Branch ⟨2, 3⟩).2.2.1 = 1) ∧
       ((li2Branch ⟨2, 3⟩).2.2.2 = -2 ∨ (li2Branch ⟨2, 3⟩).2.2.2 = 0 ∨
        (li2Branch ⟨2, 3⟩).2.2.2 = 2)) := by
  have h1 : (⟨2, 3⟩ : ℂ).im ≠ 0 := by norm_num
  have h2 : f64Eps ≤ normSq (⟨2, 3⟩ : ℂ) := by
    rw [Complex.normSq_mk, f64Eps]; norm_num
  exact ⟨h1, h2, li2Branch_shapes _ h1 h2⟩

/-- C2 counterexample: at `z = 1 + i` (which satisfies `Im(z) ≠ 0` and
`|z|² ≥ ε`, and falls in the branch `Re(z) > ½`, `|z|² ≤ 2·Re(z)`), the
produced `cy = -ln(z)·ln(1-z)` is neither zero nor `-½·ln(-z)²`. -/
theorem li2Branch_cy_counterexample :
    (⟨1, 1⟩ : ℂ).im ≠ 0 ∧ f64Eps ≤ normSq (⟨1, 1⟩ : ℂ) ∧
    ¬((li2Branch ⟨1, 1⟩).1 = 0 ∨
      (li2Branch ⟨1, 1⟩).1 = ↑(-0.5 : ℝ) * sqr (Complex.log (-(⟨1, 1⟩ : ℂ)))) := by
  refine ⟨by norm_num, by rw [Complex.normSq_mk, f64Eps]; norm_num, ?_⟩
  -- the branch taken
  have hbr : (li2Branch ⟨1, 1⟩).1 =
      (-Complex.log ⟨1, 1⟩) * Complex.log (1 - ⟨1, 1⟩) := by
    unfold li2Branch
    rw [if_neg (by norm_num : ¬((⟨1, 1⟩ : ℂ).re ≤ 0.5)),
      if_pos (by rw [Complex.normSq_mk]; norm_num :
        normSq (⟨1, 1⟩ : ℂ) ≤ 2 * (⟨1, 1⟩ : ℂ).re)]
  have h1mz : (1 : ℂ) - ⟨1, 1⟩ = -I := by
    apply Complex.ext <;> simp
  have hnegz : -(⟨1, 1⟩ : ℂ) = ⟨-1, -1⟩ := by
    apply Complex.ext <;> simp
  have habs : Complex.abs ⟨1, 1⟩ = Real.sqrt 2 := by
    rw [Complex.abs_apply, Complex.normSq_mk]; norm_num
  have habsw : Complex.abs ⟨-1, -1⟩ = Real.sqrt 2 := by
    rw [Complex.abs_apply, Complex.normSq_mk]; norm_num
  have hlog2 : (0 : ℝ) < Real.log 2 := Real.log_pos (by norm_num)
  -- imaginary part of cy
  have himcy : ((-Complex.log ⟨1, 1⟩) * Complex.log (1 - ⟨1, 1⟩)).im =
      Real.pi * Real.log 2 / 4 := by
    rw [h1mz, Complex.mul_im, Complex.neg_re, Complex.neg_im,
      Complex.log_re, Complex.log_im, Complex.log_re, Complex.log_im,
      Complex.arg_neg_I, habs, Real.log_sqrt (by norm_num : (0:ℝ) ≤ 2)]
    simp
    ring
  rw [hbr, hnegz]
  rintro (h0 | hsq)
  · have := congrArg Complex.im h0
    rw [himcy] at this
    simp only [Complex.zero_im] at this
    nlinarith [Real.pi_pos, hlog2]
  · have him := congrArg Complex.im hsq
    rw [himcy] at him
    have hrhs : ((↑(-0.5 : ℝ) : ℂ) * sqr (Complex.log ⟨-1, -1⟩)).im =
        -(Real.log 2 / 2) * arg ⟨-1, -1⟩ := by
      unfold sqr
      rw [Complex.mul_im, Complex.ofReal_re, Complex.ofReal_im,
        Complex.mul_im, Complex.mul_re,
        Complex.log_re, Complex.log_im, habsw,
        Real.log_sqrt (by norm_num : (0:ℝ) ≤ 2)]
      ring
    rw [hrhs] at him
    -- from π·ln2/4 = -(ln2/2)·arg, conclude arg ⟨-1,-1⟩ = -(π/2)
    have hprod : Real.log 2 * (arg ⟨-1, -1⟩ + Real.pi / 2) = 0 := by
      linear_combination (2 : ℝ) * him
    have harg : arg (⟨-1, -1⟩ : ℂ) = -(Real.pi / 2) := by
      rcases mul_eq_zero.1 hprod with h | h
      · exact absurd h (ne_of_gt hlog2)
      · linarith
    rw [Complex.arg_eq_neg_pi_div_two_iff] at harg
    have : (⟨-1, -1⟩ : ℂ).re = 0 := harg.1
    norm_num at this

/-! ### Conjugation symmetry (C8) -/

open ComplexConjugate in
/-- Complex logarithm commutes with conjugation away from the negative
real axis; in particular whenever the argument has a nonzero imaginary
part. -/
theorem log_conj_of_im_ne (w : ℂ) (hw : w.im ≠ 0) :
    Complex.log (conj w) = conj (Complex.log w) :=
  Complex.log_conj w fun hp => hw (Complex.arg_eq_pi_iff.1 hp).2

open ComplexConjugate in
/-- The 10-term Bernoulli series has real coefficients, hence commutes
with conjugation. -/
theorem li2Sum_conj (w : ℂ) : li2Sum (conj w) = conj (li2Sum w) := by
  unfold li2Sum sqr
  simp only [map_add, map_mul, Complex.conj_ofReal]

open ComplexConjugate in
/-- For `Im(z) ≠ 0` the transform branch commutes with conjugation:
`cy` and `cz` are conjugated, `jsgn` and `ipi12` are unchanged. -/
theorem li2Branch_conj (z : ℂ) (him : z.im ≠ 0) :
    li2Branch (conj z) =
      (conj (li2Branch z).1, conj (li2Branch z).2.1,
       (li2Branch z).2.2.1, (li2Branch z).2.2.2) := by
  have hz0 : z ≠ 0 := fun h => him (by rw [h]; simp)
  have hn0 : normSq z ≠ 0 := ne_of_gt (Complex.normSq_pos.2 hz0)
  have hmz : (-z).im ≠ 0 := by simpa using him
  have hz : z.im ≠ 0 := him
  have h1z : ((1 : ℂ) - z).im ≠ 0 := by
    simpa [Complex.sub_im] using him
  have h11z : ((1 : ℂ) - 1 / z).im ≠ 0 := by
    simp only [Complex.sub_im, Complex.one_im, one_div, Complex.inv_im,
      zero_sub, neg_div, neg_neg]
    exact div_ne_zero him hn0
  have hcneg : -conj z = conj (-z) := (map_neg (starRingEnd ℂ) z).symm
  have hc1z : (1 : ℂ) - conj z = conj (1 - z) := by
    rw [map_sub, map_one]
  have hc11z : (1 : ℂ) - 1 / conj z = conj (1 - 1 / z) := by
    rw [map_sub, map_div₀, map_one]
  unfold li2Branch
  rw [Complex.conj_re, Complex.normSq_conj]
  split_ifs with h1 h2 h3 <;> dsimp only <;>
    refine Prod.ext ?_ (Prod.ext ?_ rfl) <;> dsimp only
  · rw [hcneg, log_conj_of_im_ne _ hmz]
    simp only [sqr, map_mul, Complex.conj_ofReal]
  · rw [hc11z, log_conj_of_im_ne _ h11z, map_neg]
  · rw [map_zero]
  · rw [hc1z, log_conj_of_im_ne _ h1z, map_neg]
  · rw [map_mul, map_neg, log_conj_of_im_ne _ hz, hc1z,
      log_conj_of_im_ne _ h1z]
  · rw [map_neg, log_conj_of_im_ne _ hz]
  · rw [hcneg, log_conj_of_im_ne _ hmz]
    simp only [sqr, map_mul, Complex.conj_ofReal]
  · rw [hc11z, log_conj_of_im_ne _ h11z, map_neg]

open ComplexConjugate in
/-- C8: for every complex `z` not on the branch cut (not real with
`Re(z) ≥ 1`), `li2` of the conjugate of `z` is the conjugate of `li2`
of `z`. -/
theorem li2C_conj_symm (z : ℂ) (h : ¬(z.im = 0 ∧ 1 ≤ z.re)) :
    li2C (conj z) = conj (li2C z) := by
  by_cases him : z.im = 0
  · -- real axis, necessarily Re z < 1
    have hre : z.re ≤ 1 := by
      by_contra hc
      exact h ⟨him, le_of_lt (not_le.1 hc)⟩
    have hcz : conj z = z := by
      apply Complex.ext
      · rw [Complex.conj_re]
      · rw [Complex.conj_im, him, neg_zero]
    rw [hcz]
    simp only [li2C, if_pos him, if_pos hre]
    apply Complex.ext
    · rw [Complex.conj_re]
    · rw [Complex.conj_im]; norm_num
  · have him' : (conj z).im ≠ 0 := by
      rw [Complex.conj_im]
      exact neg_ne_zero.2 him
    by_cases hnz : normSq z < f64Eps
    · simp only [li2C, if_neg him, if_neg him', Complex.normSq_conj,
        if_pos hnz]
    · simp only [li2C, if_neg him, if_neg him', Complex.normSq_conj,
        if_neg hnz]
      rw [li2Branch_conj z him]
      dsimp only
      rw [li2Sum_conj, map_add, map_add, map_mul, Complex.conj_ofReal,
        Complex.conj_ofReal]

/-- Witness for C8 at `z = ⟨2, 3⟩`. -/
theorem li2C_conj_symm_witness :
    ¬((⟨2, 3⟩ : ℂ).im = 0 ∧ 1 ≤ (⟨2, 3⟩ : ℂ).re) ∧
      li2C ((starRingEnd ℂ) ⟨2, 3⟩) = (starRingEnd ℂ) (li2C ⟨2, 3⟩) := by
  have h : ¬((⟨2, 3⟩ : ℂ).im = 0 ∧ 1 ≤ (⟨2, 3⟩ : ℂ).re) := by
    intro hc
    have : (3 : ℝ) = 0 := hc.1
    norm_num at this
  exact ⟨h, li2C_conj_symm _ h⟩


/-! ### Interval arithmetic helpers and numerical bounds for C4 -/

theorem ivl_mul_le_of_nonneg {x y a b d : ℝ} (hax : a ≤ x) (hxb : x ≤ b)
    (hyd : y ≤ d) (ha : 0 ≤ a) (hd : 0 ≤ d) : x * y ≤ b * d :=
  calc x * y ≤ x * d := mul_le_mul_of_nonneg_left hyd (ha.trans hax)
    _ ≤ b * d := mul_le_mul_of_nonneg_right hxb hd

theorem ivl_mul_le_of_nonpos {x y a d : ℝ} (hax : a ≤ x) (hyd : y ≤ d)
    (ha : 0 ≤ a) (hd : d ≤ 0) : x * y ≤ a * d :=
  calc x * y ≤ x * d := mul_le_mul_of_nonneg_left hyd (ha.trans hax)
    _ ≤ a * d := mul_le_mul_of_nonpos_right hax hd

theorem le_ivl_mul_of_nonneg {x y a b c : ℝ} (hax : a ≤ x) (_hxb : x ≤ b)
    (hcy : c ≤ y) (hc : 0 ≤ c) (ha : 0 ≤ a) : a * c ≤ x * y :=
  calc a * c ≤ x * c := mul_le_mul_of_nonneg_right hax hc
    _ ≤ x * y := mul_le_mul_of_nonneg_left hcy (ha.trans hax)

theorem le_ivl_mul_of_nonpos {x y a b c : ℝ} (hxb : x ≤ b) (hcy : c ≤ y)
    (hc : c ≤ 0) (ha : 0 ≤ a) (hax : a ≤ x) : b * c ≤ x * y :=
  calc b * c ≤ x * c := mul_le_mul_of_nonpos_right hxb hc
    _ ≤ x * y := mul_le_mul_of_nonneg_left hcy (ha.trans hax)

/-- Rational bounds on `Real.log 2` via the Taylor series of `log (1-x)`
at `x = 1/2` with 55 terms. -/
theorem log_two_bounds :
    (216608493924982900367 / 312500000000000000000 : ℝ) ≤ Real.log 2 ∧
      Real.log 2 ≤ 866433975699931670857 / 1250000000000000000000 := by
  have h := @Real.abs_log_sub_add_sum_range_le (1/2)
    (by rw [abs_of_pos] <;> norm_num) 55
  have hS : (∑ i ∈ Finset.range 55, ((1:ℝ)/2) ^ (i + 1) / (i + 1)) =
      320456389684287015693862627866615457/462320844218702047886914903345201152 := by
    norm_num [Finset.sum_range_succ]
  rw [show (1:ℝ) - 1/2 = 2⁻¹ by norm_num, Real.log_inv, hS, abs_le] at h
  have hE : |(1:ℝ)/2| ^ 56 / (1 - |(1:ℝ)/2|) ≤ 1/36028797018963968 := by
    rw [abs_of_pos (by norm_num : (0:ℝ) < 1/2)]
    norm_num
  constructor
  · linarith [h.1, h.2, hE]
  · linarith [h.1, h.2, hE]

/-- Rational bounds on `Real.log (Real.log 2)`: monotonicity of `log`,
the series at the rational lower bound of `log 2`, and `log x ≤ x - 1`
for the width of the bracket. -/
theorem log_log_two_bounds :
    (-3665129205816663029737 / 10000000000000000000000 : ℝ) ≤ Real.log (Real.log 2) ∧
      Real.log (Real.log 2) ≤ -1832564602908311114439 / 5000000000000000000000 := by
  obtain ⟨hL1, hL2⟩ := log_two_bounds
  have hL0 : (0:ℝ) < Real.log 2 := Real.log_pos (by norm_num)
  have h := @Real.abs_log_sub_add_sum_range_le
    (95891506075017099633/312500000000000000000) (by rw [abs_of_pos] <;> norm_num) 28
  have hS : (∑ i ∈ Finset.range 28,
      ((95891506075017099633:ℝ)/312500000000000000000) ^ (i + 1) / (i + 1)) =
      78219371766436411323678554000355192332812090596481376163979389583249472059524612706495081088552144803044133747325647643196200551445304854483764366095110752938935324841904588478004404221679008007744573515076471669997516768514873513639751806084239315930930775233500282194123174575484725237763640149622498069766762130376509083064253941610621122493671088198881274504536790268322220995564934062898142543770305080469460640180278860568495602112922577008456671771334026059358561134031120035823880498596305709774137514857721340212666912895946790518953275879686945587290046602361472817766027/213415045893335758559483483368141777432992707218776807506977659725788676325919368537142872810363769531250000000000000000000000000000000000000000000000000000000000000000000000000000000000000000000000000000000000000000000000000000000000000000000000000000000000000000000000000000000000000000000000000000000000000000000000000000000000000000000000000000000000000000000000000000000000000000000000000000000000000000000000000000000000000000000000000000000000000000000000000000000000000000000000000000000000000000000000000000000000000000000000000000000000000000000000000000000000000000000000 := by
    norm_num [Finset.sum_range_succ]
  rw [show (1:ℝ) - 95891506075017099633/312500000000000000000 =
      216608493924982900367/312500000000000000000 by norm_num, hS, abs_le] at h
  have hE : |(95891506075017099633:ℝ)/312500000000000000000| ^ 29 /
      (1 - |(95891506075017099633:ℝ)/312500000000000000000|) ≤ 2e-15 := by
    rw [abs_of_pos (by norm_num : (0:ℝ) < (95891506075017099633:ℝ)/312500000000000000000)]
    norm_num
  have hlogA1 : Real.log (216608493924982900367/312500000000000000000 : ℝ) ≤
      Real.log (Real.log 2) :=
    Real.log_le_log (by norm_num) hL1
  have hlogA2 : Real.log (Real.log 2) ≤
      Real.log (866433975699931670857/1250000000000000000000 : ℝ) :=
    Real.log_le_log hL0 hL2
  have hsplit : Real.log (866433975699931670857/1250000000000000000000 : ℝ) =
      Real.log (216608493924982900367/312500000000000000000 : ℝ) +
        Real.log (866433975699931670857/866433975699931601468 : ℝ) := by
    rw [← Real.log_mul (by norm_num) (by norm_num)]
    norm_num
  have hratio : Real.log (866433975699931670857/866433975699931601468 : ℝ) ≤
      69389/866433975699931601468 := by
    have hx := Real.log_le_sub_one_of_pos
      (by norm_num : (0:ℝ) < 866433975699931670857/866433975699931601468)
    linarith [hx]
  constructor
  · linarith [h.1, h.2, hE, hlogA1]
  · linarith [h.1, h.2, hE, hlogA2, hsplit, hratio]

set_option maxHeartbeats 3200000 in
/-- Numerical bound: the real value of the small-log Li4 series at
`u = -log 2` is within `1e-14` of `0.5174790616738994`.  Interval
propagation through the Horner chain. -/
theorem li4HalfReal_bound : |li4HalfReal - 0.5174790616738994| < 1e-14 := by
  obtain ⟨hL1, hL2⟩ := log_two_bounds
  obtain ⟨hM1, hM2⟩ := log_log_two_bounds
  unfold li4HalfReal z4
  dsimp only
  set M := Real.log (Real.log 2) with hMdef
  set L := Real.log 2 with hLdef
  set K := L * L with hKdef
  have hK1 : (0.480453013918201385514223 : ℝ) ≤ K := by
    rw [hKdef]; nlinarith [hL1, hL2]
  have hK2 : K ≤ (0.480453013918201462469088 : ℝ) := by
    rw [hKdef]; nlinarith [hL1, hL2]
  have h5a : (0.000000000000016017442102 : ℝ) ≤ (1.613000652835010e-14 + K * (-2.342881045287934e-16)) := by linarith [hK1, hK2]
  have h5b : (1.613000652835010e-14 + K * (-2.342881045287934e-16)) ≤ (0.000000000000016017442103 : ℝ) := by linarith [hK1, hK2]
  have hm4a := le_ivl_mul_of_nonneg hK1 hK2 h5a
    (by norm_num : (0:ℝ) ≤ 0.000000000000016017442102) (by norm_num : (0:ℝ) ≤ 0.480453013918201385514223)
  have hm4b := ivl_mul_le_of_nonneg hK1 hK2 h5b
    (by norm_num : (0:ℝ) ≤ 0.480453013918201385514223) (by norm_num : (0:ℝ) ≤ 0.000000000000016017442103)
  have h4a : (-0.00000000000120889860173 : ℝ) ≤ (-1.216594230062244e-12 + K * (1.613000652835010e-14 + K * (-2.342881045287934e-16))) := by linarith [hm4a]
  have h4b : (-1.216594230062244e-12 + K * (1.613000652835010e-14 + K * (-2.342881045287934e-16))) ≤ (-0.000000000001208898601728 : ℝ) := by linarith [hm4b]
  have hm3a := le_ivl_mul_of_nonpos hK2 h4a
    (by norm_num : (-0.00000000000120889860173:ℝ) ≤ 0) (by norm_num : (0:ℝ) ≤ 0.480453013918201385514223) hK1
  have hm3b := ivl_mul_le_of_nonpos hK1 h4b
    (by norm_num : (0:ℝ) ≤ 0.480453013918201385514223) (by norm_num : (-0.000000000001208898601728:ℝ) ≤ 0)
  have h3a : (0.000000000103802965962617 : ℝ) ≤ (1.043837849393405e-10 + K * (-1.216594230062244e-12 + K * (1.613000652835010e-14 + K * (-2.342881045287934e-16)))) := by linarith [hm3a]
  have h3b : (1.043837849393405e-10 + K * (-1.216594230062244e-12 + K * (1.613000652835010e-14 + K * (-2.342881045287934e-16)))) ≤ (0.000000000103802965962619 : ℝ) := by linarith [hm3b]
  have hm2a := le_ivl_mul_of_nonneg hK1 hK2 h3a
    (by norm_num : (0:ℝ) ≤ 0.000000000103802965962617) (by norm_num : (0:ℝ) ≤ 0.480453013918201385514223)
  have hm2b := ivl_mul_le_of_nonneg hK1 hK2 h3b
    (by norm_num : (0:ℝ) ≤ 0.480453013918201385514223) (by norm_num : (0:ℝ) ≤ 0.000000000103802965962619)
  have h2a : (-0.000000010885571688651953 : ℝ) ≤ (-1.093544413650234e-08 + K * (1.043837849393405e-10 + K * (-1.216594230062244e-12 + K * (1.613000652835010e-14 + K * (-2.342881045287934e-16))))) := by linarith [hm2a]
  have h2b : (-1.093544413650234e-08 + K * (1.043837849393405e-10 + K * (-1.216594230062244e-12 + K * (1.613000652835010e-14 + K * (-2.342881045287934e-16))))) ≤ (-0.000000010885571688651951 : ℝ) := by linarith [hm2b]
  have hm1a := le_ivl_mul_of_nonpos hK2 h2a
    (by norm_num : (-0.000000010885571688651953:ℝ) ≤ 0) (by norm_num : (0:ℝ) ≤ 0.480453013918201385514223) hK1
  have hm1b := ivl_mul_le_of_nonpos hK1 h2b
    (by norm_num : (0:ℝ) ≤ 0.480453013918201385514223) (by norm_num : (-0.000000010885571688651951:ℝ) ≤ 0)
  have h1a : (0.000001648209147713117523 : ℝ) ≤ (1.653439153439153e-06 + K * (-1.093544413650234e-08 + K * (1.043837849393405e-10 + K * (-1.216594230062244e-12 + K * (1.613000652835010e-14 + K * (-2.342881045287934e-16)))))) := by linarith [hm1a]
  have h1b : (1.653439153439153e-06 + K * (-1.093544413650234e-08 + K * (1.043837849393405e-10 + K * (-1.216594230062244e-12 + K * (1.613000652835010e-14 + K * (-2.342881045287934e-16)))))) ≤ (0.000001648209147713117526 : ℝ) := by linarith [hm1b]
  have hm0a := le_ivl_mul_of_nonneg hK1 hK2 h1a
    (by norm_num : (0:ℝ) ≤ 0.000001648209147713117523) (by norm_num : (0:ℝ) ≤ 0.480453013918201385514223)
  have hm0b := ivl_mul_le_of_nonneg hK1 hK2 h1b
    (by norm_num : (0:ℝ) ≤ 0.480453013918201385514223) (by norm_num : (0:ℝ) ≤ 0.000001648209147713117526)
  have h0a : (-0.000693652557391858082704 : ℝ) ≤ (-6.944444444444444e-04 + K * (1.653439153439153e-06 + K * (-1.093544413650234e-08 + K * (1.043837849393405e-10 + K * (-1.216594230062244e-12 + K * (1.613000652835010e-14 + K * (-2.342881045287934e-16))))))) := by linarith [hm0a]
  have h0b : (-6.944444444444444e-04 + K * (1.653439153439153e-06 + K * (-1.093544413650234e-08 + K * (1.043837849393405e-10 + K * (-1.216594230062244e-12 + K * (1.613000652835010e-14 + K * (-2.342881045287934e-16))))))) ≤ (-0.000693652557391858082575 : ℝ) := by linarith [hm0b]
  have hmWa := le_ivl_mul_of_nonpos hK2 h0a
    (by norm_num : (-0.000693652557391858082704:ℝ) ≤ 0) (by norm_num : (0:ℝ) ≤ 0.480453013918201385514223) hK1
  have hmWb := ivl_mul_le_of_nonpos hK1 h0b
    (by norm_num : (0:ℝ) ≤ 0.480453013918201385514223) (by norm_num : (-0.000693652557391858082575:ℝ) ≤ 0)
  have hWa : (0.366307774857354939606708 : ℝ) ≤ ((11 / 6 - M) / 6 + K * (-6.944444444444444e-04 + K * (1.653439153439153e-06 + K * (-1.093544413650234e-08 + K * (1.043837849393405e-10 + K * (-1.216594230062244e-12 + K * (1.613000652835010e-14 + K * (-2.342881045287934e-16)))))))) := by linarith [hmWa, hM1, hM2]
  have hWb : ((11 / 6 - M) / 6 + K * (-6.944444444444444e-04 + K * (1.653439153439153e-06 + K * (-1.093544413650234e-08 + K * (1.043837849393405e-10 + K * (-1.216594230062244e-12 + K * (1.613000652835010e-14 + K * (-2.342881045287934e-16)))))))) ≤ (0.366307774857355619674469 : ℝ) := by linarith [hmWb, hM1, hM2]
  have hmVa := le_ivl_mul_of_nonneg hK1 hK2 hWa
    (by norm_num : (0:ℝ) ≤ 0.366307774857354939606708) (by norm_num : (0:ℝ) ≤ 0.480453013918201385514223)
  have hmVb := ivl_mul_le_of_nonneg hK1 hK2 hWb
    (by norm_num : (0:ℝ) ≤ 0.480453013918201385514223) (by norm_num : (0:ℝ) ≤ 0.366307774857355619674469)
  have hVa : (1.378050577611480132343131 : ℝ) ≤ (1.202056903159594 + K * ((11 / 6 - M) / 6 + K * (-6.944444444444444e-04 + K * (1.653439153439153e-06 + K * (-1.093544413650234e-08 + K * (1.043837849393405e-10 + K * (-1.216594230062244e-12 + K * (1.613000652835010e-14 + K * (-2.342881045287934e-16))))))))) := by linarith [hmVa]
  have hVb : (1.202056903159594 + K * ((11 / 6 - M) / 6 + K * (-6.944444444444444e-04 + K * (1.653439153439153e-06 + K * (-1.093544413650234e-08 + K * (1.043837849393405e-10 + K * (-1.216594230062244e-12 + K * (1.613000652835010e-14 + K * (-2.342881045287934e-16))))))))) ≤ (1.378050577611480487272903 : ℝ) := by linarith [hmVb]
  have hGa : (0.812457595634150669531894 : ℝ) ≤ (0.8224670334241132 + K * (-1 / 48)) := by linarith [hK1, hK2]
  have hGb : (0.8224670334241132 + K * (-1 / 48)) ≤ (0.812457595634150671135121 : ℝ) := by linarith [hK1, hK2]
  have hmKGa := le_ivl_mul_of_nonneg hK1 hK2 hGa
    (by norm_num : (0:ℝ) ≤ 0.812457595634150669531894) (by norm_num : (0:ℝ) ≤ 0.480453013918201385514223)
  have hmKGb := ivl_mul_le_of_nonneg hK1 hK2 hGb
    (by norm_num : (0:ℝ) ≤ 0.480453013918201385514223) (by norm_num : (0:ℝ) ≤ 0.812457595634150671135121)
  have hmLVa := le_ivl_mul_of_nonneg hL1 hL2 hVa
    (by norm_num : (0:ℝ) ≤ 1.378050577611480132343131) (by norm_num : (0:ℝ) ≤ 216608493924982900367 / 312500000000000000000)
  have hmLVb := ivl_mul_le_of_nonneg hL1 hL2 hVb
    (by norm_num : (0:ℝ) ≤ 216608493924982900367 / 312500000000000000000) (by norm_num : (0:ℝ) ≤ 1.378050577611480487272903)
  rw [abs_sub_lt_iff]
  constructor
  · linarith [hmKGb, hmLVa]
  · linarith [hmKGa, hmLVb]

/-- At the real point `z = 1/2` the algorithm takes the small-log branch
with `u = -log 2`, and the complex Horner evaluation collapses to the
real value `li4HalfReal`. -/
theorem li4C_half : li4C ((1 / 2 : ℝ) : ℂ) = ↑li4HalfReal := by
  have hL0 : (0 : ℝ) < Real.log 2 := Real.log_pos (by norm_num)
  have hns : normSq ((1 / 2 : ℝ) : ℂ) = 1 / 4 := by
    rw [Complex.normSq_ofReal]; norm_num
  have harg : arg ((1 / 2 : ℝ) : ℂ) = 0 :=
    Complex.arg_ofReal_of_nonneg (by norm_num)
  have hlnz : 0.5 * Real.log (normSq ((1 / 2 : ℝ) : ℂ)) = -Real.log 2 := by
    rw [hns, show (1 / 4 : ℝ) = 4⁻¹ by norm_num, Real.log_inv,
      show (4 : ℝ) = 2 ^ 2 by norm_num, Real.log_pow]
    push_cast
    ring
  have h1 : ¬(((1 / 2 : ℝ) : ℂ).im = 0 ∧ ((1 / 2 : ℝ) : ℂ).re = 0) := by
    intro hc
    rw [Complex.ofReal_re] at hc
    norm_num at hc
  have h2 : ¬(((1 / 2 : ℝ) : ℂ).im = 0 ∧ ((1 / 2 : ℝ) : ℂ).re = 1) := by
    intro hc
    rw [Complex.ofReal_re] at hc
    norm_num at hc
  have h3 : ¬(((1 / 2 : ℝ) : ℂ).im = 0 ∧ ((1 / 2 : ℝ) : ℂ).re = -1) := by
    intro hc
    rw [Complex.ofReal_re] at hc
    norm_num at hc
  have h4 : 0.5 * Real.log (normSq ((1 / 2 : ℝ) : ℂ)) *
      (0.5 * Real.log (normSq ((1 / 2 : ℝ) : ℂ))) +
      arg ((1 / 2 : ℝ) : ℂ) * arg ((1 / 2 : ℝ) : ℂ) < 1 := by
    rw [hlnz, harg]
    nlinarith [Real.log_two_lt_d9, hL0]
  unfold li4C
  rw [if_neg h1, if_neg h2, if_neg h3]
  dsimp only
  rw [if_pos h4]
  unfold li4Small
  have hu : (⟨0.5 * Real.log (normSq ((1 / 2 : ℝ) : ℂ)),
      arg ((1 / 2 : ℝ) : ℂ)⟩ : ℂ) = ↑(-Real.log 2) := by
    apply Complex.ext
    · rw [Complex.ofReal_re]; exact hlnz
    · rw [Complex.ofReal_im]; exact harg
  rw [hu]
  dsimp only
  have hcln : clnC (-(↑(-Real.log 2) : ℂ)) = ↑(Real.log (Real.log 2)) := by
    rw [show (-(↑(-Real.log 2) : ℂ)) = ↑(Real.log 2) by push_cast; ring]
    unfold clnC
    apply Complex.ext
    · rw [Complex.ofReal_re, Complex.normSq_ofReal,
        Real.log_mul (ne_of_gt hL0) (ne_of_gt hL0)]
      ring
    · rw [Complex.ofReal_im]
      exact Complex.arg_ofReal_of_nonneg (le_of_lt hL0)
  rw [hcln]
  unfold li4HalfReal z4
  dsimp only
  push_cast
  ring

/-- C4: the exact special values: `li2(1) = pi²/6` and
`li2(-1) = -pi²/12` exactly (special-case branches), `li4(0) = 0`,
`li4(1) = 1.082323233711138` (the `zeta(4)` literal), and
`li4(-1) = -7/8 · 1.082323233711138` exactly, and `li4(0.5)` is real and
within `1e-14` of `0.5174790616738994`. -/
theorem li4_li2_special_values :
    li2R 1 = pi ^ 2 / 6 ∧
    li2R (-1) = -pi ^ 2 / 12 ∧
    li4C 0 = 0 ∧
    li4C 1 = ((1.082323233711138 : ℝ) : ℂ) ∧
    li4C (-1) = ((-7 / 8 * 1.082323233711138 : ℝ) : ℂ) ∧
    (li4C ((1 / 2 : ℝ) : ℂ)).im = 0 ∧
    |(li4C ((1 / 2 : ℝ) : ℂ)).re - 0.5174790616738994| < 1e-14 := by
  refine ⟨?_, ?_, ?_, ?_, ?_, ?_, ?_⟩
  · rw [show li2R 1 = pi6 by unfold li2R; norm_num, pi6, pi2]
    ring
  · rw [show li2R (-1) = -pi2 / 12 by unfold li2R; norm_num, pi2]
    ring
  · unfold li4C
    norm_num
  · unfold li4C z4
    norm_num
  · unfold li4C z4
    norm_num
  · rw [li4C_half, Complex.ofReal_im]
  · rw [li4C_half, Complex.ofReal_re]
    exact li4HalfReal_bound

end Polylog
